import Mathlib

/-!
Verification of the robotour2025 lidar service.

Shallow embedding of:
  * `src/lidar/point_processing.hpp` (`LidarPointProcessing`): ring buffer of
    samples, `pushSample`, `clear`, `distance`, `transformCloud`, `ignoreBox`;
  * `src/lidar/lidar_controller.hpp` (`LidarController`): `start` event order,
    `setMode`, `getDistance`;
  * `src/lidar/raw_logger.hpp` (`LidarRawLogger`): `writeAnyPacket` record
    format and its validation;
  * `src/lidar/ply_logger.hpp` (`PLYLogger`): buffered snapshot logger;
  * `src/lidar/robot_lidar_tcp.cpp`: the line-based command dispatch.

Float arithmetic of the C++ code is idealised as exact rational arithmetic for
the stored sample coordinates and as exact real arithmetic for the returned
distances and the fixed coordinate transform.
-/

namespace RobotLidar

/-- Capacity of the ring buffer: `1u << 16` samples
(`LidarPointProcessing::kCapacity`). -/
def kCapacity : ℕ := 65536

/-- One stored sample (`LidarPointProcessing::Sample`): robot-frame
coordinates in cm, intensity, absolute time, ring index. -/
structure Sample where
  x : ℚ
  y : ℚ
  z : ℚ
  intensity : ℚ
  time : ℚ
  ring : ℕ
  deriving DecidableEq, Repr

/-- State of `LidarPointProcessing`: the fixed-size buffer `buffer_`, the
write index `head_` (a `uint16_t`, wrapping mod 2^16 = `kCapacity`) and the
saturating valid-sample count `size_`. -/
structure RingState where
  buffer : Fin kCapacity → Sample
  head : ℕ
  size : ℕ

/-- The `clear()` member: resets `head_` and `size_` to zero and leaves the
buffer contents untouched. -/
def RingState.clear (st : RingState) : RingState :=
  { st with head := 0, size := 0 }

/-- A zero sample, the value-initialised contents of `buffer_{}`. -/
def zeroSample : Sample := ⟨0, 0, 0, 0, 0, 0⟩

/-- The freshly constructed processing state: zero-initialised buffer,
`head_ == 0`, `size_ == 0`. -/
def initState : RingState := ⟨fun _ => zeroSample, 0, 0⟩

/-- The `pushSample` member: writes at `head_`, increments `head_` with
`uint16_t` wrap-around (mod `kCapacity`), and increments `size_` until it
saturates at `kCapacity`.  (The PLY dump fired when the buffer is full and
`head_` wraps to 0 performs file output only and does not change this
state.) -/
def pushSample (st : RingState) (s : Sample) : RingState :=
  { buffer := Function.update st.buffer
      ⟨st.head % kCapacity, Nat.mod_lt _ (by norm_num [kCapacity])⟩ s
    head := (st.head + 1) % kCapacity
    size := if st.size < kCapacity then st.size + 1 else st.size }

/-- Pushing a list of samples in order (the per-point loop of
`updateCloud`). -/
def pushList (st : RingState) (L : List Sample) : RingState :=
  L.foldl pushSample st

/-- Planar squared distance `x*x + y*y` of a sample (`d2` in
`LidarPointProcessing::distance`). -/
def planarSq (s : Sample) : ℚ := s.x * s.x + s.y * s.y

/-- Whether a sample's z lies in the height band `[z_min, z_max]`; the scan
skips a sample exactly when this fails (`p.z < z_min || p.z > z_max`). -/
def inBand (s : Sample) (z_min z_max : ℚ) : Prop :=
  z_min ≤ s.z ∧ s.z ≤ z_max

instance (s : Sample) (z_min z_max : ℚ) : Decidable (inBand s z_min z_max) :=
  inferInstanceAs (Decidable (_ ∧ _))

/-- One iteration of the scan loop in `distance`: skip out-of-band samples,
otherwise lower the running minimum `min_sq` and set `found` when the planar
squared distance beats the current minimum. -/
def scanStep (z_min z_max : ℚ) (acc : ℚ × Bool) (p : Sample) : ℚ × Bool :=
  if p.z < z_min ∨ z_max < p.z then acc
  else if planarSq p < acc.1 then (planarSq p, true) else acc

/-- The buffer slots in index order `0 .. kCapacity-1`, the order in which
`distance` scans them. -/
def slots (st : RingState) : List Sample :=
  (List.finRange kCapacity).map st.buffer

/-- The scan of `distance`: fold of `scanStep` over every slot starting from
`min_sq = 5000.0`, `found = false`. -/
def scanMin (st : RingState) (z_min z_max : ℚ) : ℚ × Bool :=
  (slots st).foldl (scanStep z_min z_max) (5000, false)

/-- The `distance(z_min, z_max)` member: `-1` while the buffer has not been
full, otherwise `sqrt(min_sq)` when a sample improved the minimum and the
sentinel `5000` when none did. -/
noncomputable def distance (st : RingState) (z_min z_max : ℚ) : ℝ :=
  if st.size < kCapacity then -1
  else if (scanMin st z_min z_max).2 = false then 5000
  else Real.sqrt ((scanMin st z_min z_max).1 : ℝ)

/-- The controller's `getDistance`: reads `distance()` with the default band
`[-50, 80]` and reports `valid = (dist_out < 0 ? false : true)`. -/
noncomputable def getDistance (st : RingState) : ℝ × Bool :=
  let d := distance st (-50) 80
  (d, if d < 0 then false else true)

theorem kCapacity_pos : 0 < kCapacity := by norm_num [kCapacity]

theorem head_pushSample (st : RingState) (s : Sample) :
    (pushSample st s).head = (st.head + 1) % kCapacity := rfl

theorem size_pushSample (st : RingState) (s : Sample) :
    (pushSample st s).size = if st.size < kCapacity then st.size + 1 else st.size := rfl

theorem buffer_pushSample (st : RingState) (s : Sample) :
    (pushSample st s).buffer = Function.update st.buffer
      ⟨st.head % kCapacity, Nat.mod_lt _ kCapacity_pos⟩ s := rfl

theorem pushList_append (st : RingState) (L : List Sample) (s : Sample) :
    pushList st (L ++ [s]) = pushSample (pushList st L) s := by
  simp [pushList, List.foldl_append]

theorem head_pushList (st : RingState) (hh : st.head < kCapacity)
    (L : List Sample) :
    (pushList st L).head = (st.head + L.length) % kCapacity := by
  induction L generalizing st with
  | nil =>
      simpa [pushList] using (Nat.mod_eq_of_lt hh).symm
  | cons a L ih =>
      have h1 : (pushSample st a).head < kCapacity :=
        Nat.mod_lt _ kCapacity_pos
      have h2 := ih (pushSample st a) h1
      simp only [pushList, List.foldl_cons] at h2 ⊢
      rw [h2, head_pushSample, Nat.mod_add_mod, List.length_cons]
      congr 1
      omega

theorem size_pushList (st : RingState) (hs : st.size ≤ kCapacity)
    (L : List Sample) :
    (pushList st L).size = min (st.size + L.length) kCapacity := by
  induction L generalizing st with
  | nil => simp [pushList]; omega
  | cons a L ih =>
      have h1 : (pushSample st a).size ≤ kCapacity := by
        rw [size_pushSample]; split_ifs <;> omega
      have h2 := ih (pushSample st a) h1
      simp only [pushList, List.foldl_cons] at h2 ⊢
      rw [h2, size_pushSample, List.length_cons]
      split_ifs <;> omega

theorem buffer_pushList (st : RingState) (hh : st.head < kCapacity)
    (L : List Sample) :
    ∀ (j : ℕ) (hj : j < L.length), L.length - kCapacity ≤ j →
      ∀ idx : Fin kCapacity, (idx : ℕ) = (st.head + j) % kCapacity →
        (pushList st L).buffer idx = L.get ⟨j, hj⟩ := by
  induction L using List.reverseRecOn with
  | nil => intro j hj; simp at hj
  | append_singleton L s ih =>
      intro j hj hge idx hidx
      rw [pushList_append, buffer_pushSample]
      have hhead : (pushList st L).head = (st.head + L.length) % kCapacity :=
        head_pushList st hh L
      simp only [List.length_append, List.length_singleton] at hj hge
      by_cases hjn : j = L.length
      · subst hjn
        have hw : idx = ⟨(pushList st L).head % kCapacity,
              Nat.mod_lt _ kCapacity_pos⟩ := by
          apply Fin.ext
          rw [hidx]
          simp only [hhead]
          rw [Nat.mod_mod_of_dvd _ dvd_rfl]
        rw [hw, Function.update_same]
        simp only [List.get_eq_getElem]
        exact (List.getElem_concat_length L s _ rfl _).symm
      · have hjlt : j < L.length := by omega
        have hne : idx ≠ ⟨(pushList st L).head % kCapacity,
              Nat.mod_lt _ kCapacity_pos⟩ := by
          intro heq
          have hv : (st.head + j) % kCapacity
              = (st.head + L.length) % kCapacity := by
            have hval := congrArg Fin.val heq
            rw [hidx] at hval
            rw [hval]
            simp only [hhead]
            rw [Nat.mod_mod_of_dvd _ dvd_rfl]
          have hv2 : (st.head + j) % kCapacity
              = (st.head + j + (L.length - j)) % kCapacity := by
            rw [hv]; congr 1; omega
          have hdvd : kCapacity ∣ st.head + j + (L.length - j) - (st.head + j) :=
            (Nat.modEq_iff_dvd' (Nat.le_add_right _ _)).mp hv2
          have hdvd2 : kCapacity ∣ L.length - j := by
            simpa using hdvd
          have hle := Nat.le_of_dvd (by omega) hdvd2
          omega
        rw [Function.update_noteq hne]
        have hres := ih j hjlt (by omega) idx hidx
        rw [hres]
        simp only [List.get_eq_getElem]
        exact (List.getElem_append_left hjlt).symm

theorem head_clear (st : RingState) : st.clear.head = 0 := rfl

theorem size_clear (st : RingState) : st.clear.size = 0 := rfl

theorem size_pushList_clear (st : RingState) (L : List Sample) :
    (pushList st.clear L).size = min L.length kCapacity := by
  have h := size_pushList st.clear (by rw [size_clear]; omega) L
  rw [size_clear, Nat.zero_add] at h
  exact h

theorem buffer_pushList_clear (st : RingState) (L : List Sample)
    (j : ℕ) (hj : j < L.length) (hge : L.length - kCapacity ≤ j)
    (idx : Fin kCapacity) (hidx : (idx : ℕ) = j % kCapacity) :
    (pushList st.clear L).buffer idx = L.get ⟨j, hj⟩ := by
  apply buffer_pushList st.clear (by rw [head_clear]; exact kCapacity_pos)
    L j hj hge idx
  rw [hidx, head_clear, Nat.zero_add]

theorem buffer_pushList_replicate (st : RingState) (s : Sample)
    (i : Fin kCapacity) :
    (pushList st.clear (List.replicate kCapacity s)).buffer i = s := by
  have hj : (i : ℕ) < (List.replicate kCapacity s).length := by
    rw [List.length_replicate]; exact i.isLt
  have hge : (List.replicate kCapacity s).length - kCapacity ≤ (i : ℕ) := by
    rw [List.length_replicate]; omega
  have h := buffer_pushList_clear st (List.replicate kCapacity s)
    i hj hge i (Nat.mod_eq_of_lt i.isLt).symm
  rw [h]
  simp only [List.get_eq_getElem, List.getElem_replicate]

theorem slots_pushList_replicate (st : RingState) (s : Sample) :
    slots (pushList st.clear (List.replicate kCapacity s))
      = List.replicate kCapacity s := by
  rw [List.eq_replicate_iff]
  constructor
  · simp [slots]
  · intro b hb
    simp only [slots, List.mem_map] at hb
    obtain ⟨i, _, hi⟩ := hb
    rw [← hi, buffer_pushList_replicate]

theorem foldl_fixed {α β : Type} (f : β → α → β) (b : β) (l : List α)
    (h : ∀ a ∈ l, f b a = b) : l.foldl f b = b := by
  induction l with
  | nil => rfl
  | cons a l ih =>
      rw [List.foldl_cons, h a (List.mem_cons_self a l)]
      exact ih fun a ha => h a (List.mem_cons_of_mem _ ha)

theorem planarSq_nonneg (s : Sample) : 0 ≤ planarSq s := by
  unfold planarSq
  exact add_nonneg (mul_self_nonneg _) (mul_self_nonneg _)

theorem scanStep_inv (z_min z_max : ℚ) (acc : ℚ × Bool) (p : Sample)
    (h0 : 0 ≤ acc.1) (hf : acc.2 = false → acc.1 = 5000)
    (ht : acc.2 = true → acc.1 < 5000) :
    0 ≤ (scanStep z_min z_max acc p).1 ∧
      ((scanStep z_min z_max acc p).2 = false →
        (scanStep z_min z_max acc p).1 = 5000) ∧
      ((scanStep z_min z_max acc p).2 = true →
        (scanStep z_min z_max acc p).1 < 5000) := by
  have hle : acc.1 ≤ 5000 := by
    cases hb : acc.2
    · exact le_of_eq (hf hb)
    · exact le_of_lt (ht hb)
  unfold scanStep
  split_ifs with h1 h2
  · exact ⟨h0, hf, ht⟩
  · refine ⟨planarSq_nonneg p, ?_, ?_⟩
    · intro hb; simp at hb
    · intro _; exact lt_of_lt_of_le h2 hle
  · exact ⟨h0, hf, ht⟩

theorem scan_foldl_inv (z_min z_max : ℚ) (l : List Sample) (acc : ℚ × Bool)
    (h0 : 0 ≤ acc.1) (hf : acc.2 = false → acc.1 = 5000)
    (ht : acc.2 = true → acc.1 < 5000) :
    0 ≤ (l.foldl (scanStep z_min z_max) acc).1 ∧
      ((l.foldl (scanStep z_min z_max) acc).2 = false →
        (l.foldl (scanStep z_min z_max) acc).1 = 5000) ∧
      ((l.foldl (scanStep z_min z_max) acc).2 = true →
        (l.foldl (scanStep z_min z_max) acc).1 < 5000) := by
  induction l generalizing acc with
  | nil => exact ⟨h0, hf, ht⟩
  | cons a l ih =>
      rw [List.foldl_cons]
      obtain ⟨g0, gf, gt⟩ := scanStep_inv z_min z_max acc a h0 hf ht
      exact ih _ g0 gf gt

theorem scanMin_inv (st : RingState) (z_min z_max : ℚ) :
    0 ≤ (scanMin st z_min z_max).1 ∧
      ((scanMin st z_min z_max).2 = false → (scanMin st z_min z_max).1 = 5000) ∧
      ((scanMin st z_min z_max).2 = true → (scanMin st z_min z_max).1 < 5000) := by
  unfold scanMin
  exact scan_foldl_inv z_min z_max (slots st) (5000, false)
    (by norm_num) (fun _ => rfl) (fun hb => by simp at hb)

theorem scanStep_far (z_min z_max : ℚ) (acc : ℚ × Bool) (p : Sample)
    (hle : acc.1 ≤ 5000) (hfar : 5000 ≤ planarSq p) :
    scanStep z_min z_max acc p = acc := by
  unfold scanStep
  split_ifs with h1 h2
  · rfl
  · exact absurd h2 (not_lt.mpr (le_trans hle hfar))
  · rfl

theorem scanMin_far (st : RingState) (z_min z_max : ℚ)
    (h : ∀ s ∈ slots st, inBand s z_min z_max → 5000 ≤ planarSq s) :
    scanMin st z_min z_max = (5000, false) := by
  unfold scanMin
  apply foldl_fixed
  intro a ha
  by_cases hband : a.z < z_min ∨ z_max < a.z
  · unfold scanStep; rw [if_pos hband]
  · push_neg at hband
    exact scanStep_far z_min z_max _ a (by norm_num)
      (h a ha ⟨hband.1, hband.2⟩)

/-- The state obtained by clearing and then pushing `kCapacity` copies of a
single in-band sample 100 cm away in the x direction. -/
def sFar : Sample := ⟨100, 0, 0, 0, 0, 0⟩

/-- A ring buffer artificially filled with `sFar`. -/
def stFar : RingState := pushList initState.clear (List.replicate kCapacity sFar)

theorem stFar_size : stFar.size = kCapacity := by
  unfold stFar
  rw [size_pushList_clear, List.length_replicate]
  omega

theorem stFar_buffer (i : Fin kCapacity) : stFar.buffer i = sFar := by
  unfold stFar
  exact buffer_pushList_replicate initState sFar i

theorem stFar_slots : slots stFar = List.replicate kCapacity sFar := by
  unfold stFar
  exact slots_pushList_replicate initState sFar

theorem distance_stFar : distance stFar (-50) 80 = 5000 := by
  have hall : ∀ s ∈ slots stFar, inBand s (-50) 80 → 5000 ≤ planarSq s := by
    intro s hs _
    rw [stFar_slots] at hs
    rw [List.eq_of_mem_replicate hs]
    unfold planarSq sFar
    norm_num
  have hm := scanMin_far stFar (-50) 80 hall
  unfold distance
  rw [if_neg (by rw [stFar_size]; omega), hm]
  simp

/-- Claim C1 (code bug): on a full buffer every slot of which holds the
in-band sample `(100, 0, 0)` — planar distance 100 cm — `distance(-50, 80)`
returns the sentinel `5000` even though in-band samples exist, because the
running minimum starts at `5000` interpreted as a squared distance; the
spec and the code's own doc comment say `5000` is returned only when no
sample lies in the height band, and that otherwise the minimum planar
distance (here 100) is returned. -/
theorem distance_sentinel_despite_inband :
    distance stFar (-50) 80 = 5000 ∧
      (∀ i : Fin kCapacity, inBand (stFar.buffer i) (-50) 80) ∧
      (∀ i : Fin kCapacity, planarSq (stFar.buffer i) = 10000) := by
  refine ⟨distance_stFar, ?_, ?_⟩
  · intro i
    rw [stFar_buffer i]
    unfold inBand sFar
    norm_num
  · intro i
    rw [stFar_buffer i]
    unfold planarSq sFar
    norm_num

/-- Claim C2: on a full buffer, `distance` returns either a value strictly
below `sqrt 5000` or exactly the sentinel `5000`; any in-band sample whose
planar squared distance is at least `5000` leaves the scan accumulator
unchanged, and a scene whose in-band samples all lie at squared distance at
least `5000` is reported as `5000`. -/
theorem distance_capped (st : RingState) (z_min z_max : ℚ)
    (h : kCapacity ≤ st.size) :
    (distance st z_min z_max < Real.sqrt 5000 ∨ distance st z_min z_max = 5000)
      ∧ (∀ (acc : ℚ × Bool) (p : Sample), acc.1 ≤ 5000 → 5000 ≤ planarSq p →
          scanStep z_min z_max acc p = acc)
      ∧ ((∀ s ∈ slots st, inBand s z_min z_max → 5000 ≤ planarSq s) →
          distance st z_min z_max = 5000) := by
  have hns : ¬ st.size < kCapacity := not_lt.mpr h
  refine ⟨?_, fun acc p hle hfar => scanStep_far z_min z_max acc p hle hfar, ?_⟩
  · unfold distance
    rw [if_neg hns]
    by_cases hb : (scanMin st z_min z_max).2 = false
    · right; rw [if_pos hb]
    · left
      rw [if_neg hb]
      have hbt : (scanMin st z_min z_max).2 = true := by
        cases hx : (scanMin st z_min z_max).2
        · exact absurd hx hb
        · rfl
      obtain ⟨h0, _, ht⟩ := scanMin_inv st z_min z_max
      have hlt := ht hbt
      have h0r : (0 : ℝ) ≤ ((scanMin st z_min z_max).1 : ℝ) := by exact_mod_cast h0
      have hltr : ((scanMin st z_min z_max).1 : ℝ) < 5000 := by exact_mod_cast hlt
      exact Real.sqrt_lt_sqrt h0r hltr
  · intro hall
    unfold distance
    rw [if_neg hns, scanMin_far st z_min z_max hall]
    simp

theorem distance_capped_witness :
    distance stFar (-50) 80 < Real.sqrt 5000 ∨ distance stFar (-50) 80 = 5000 :=
  (distance_capped stFar (-50) 80 (le_of_eq stFar_size.symm)).1

/-- Claim C3: `distance` returns `-1` — and `getDistance` reports
`valid = false` — exactly when the buffer has not yet reached full capacity,
i.e. when fewer than `kCapacity` samples were pushed since the last
`clear()`; once full, `getDistance` reports `valid = true` with a
non-negative distance. -/
theorem getDistance_valid_iff (st : RingState) :
    ((getDistance st).2 = false ↔ st.size < kCapacity)
      ∧ (distance st (-50) 80 = -1 ↔ st.size < kCapacity)
      ∧ ((getDistance st).2 = true → 0 ≤ (getDistance st).1)
      ∧ ((getDistance st).1 = distance st (-50) 80)
      ∧ (∀ L : List Sample,
          ((pushList st.clear L).size < kCapacity ↔ L.length < kCapacity)) := by
  have hL : ∀ L : List Sample,
      ((pushList st.clear L).size < kCapacity ↔ L.length < kCapacity) := by
    intro L
    rw [size_pushList_clear]
    omega
  by_cases h : st.size < kCapacity
  · have hd : distance st (-50) 80 = -1 := by unfold distance; rw [if_pos h]
    have hv : (getDistance st).2 = false := by
      unfold getDistance
      simp only [hd]
      norm_num
    refine ⟨⟨fun _ => h, fun _ => hv⟩, ⟨fun _ => h, fun _ => hd⟩, ?_, rfl, hL⟩
    intro hvt
    rw [hv] at hvt
    exact absurd hvt (by simp)
  · have hnn : 0 ≤ distance st (-50) 80 := by
      unfold distance
      rw [if_neg h]
      split_ifs
      · norm_num
      · exact Real.sqrt_nonneg _
    have hv : (getDistance st).2 = true := by
      unfold getDistance
      simp only
      rw [if_neg (not_lt.mpr hnn)]
    refine ⟨⟨fun hvf => ?_, fun hlt => absurd hlt h⟩,
            ⟨fun hd => ?_, fun hlt => absurd hlt h⟩,
            fun _ => hnn, rfl, hL⟩
    · rw [hv] at hvf; exact absurd hvf (by simp)
    · rw [hd] at hnn; norm_num at hnn

theorem getDistance_valid_iff_witness :
    (getDistance stFar).2 = true ∧ 0 ≤ (getDistance stFar).1 := by
  have h := getDistance_valid_iff stFar
  have hns : ¬ stFar.size < kCapacity := by rw [stFar_size]; omega
  have hvt : (getDistance stFar).2 = true := by
    cases hx : (getDistance stFar).2
    · exact absurd (h.1.mp hx) hns
    · rfl
  exact ⟨hvt, h.2.2.1 hvt⟩

/-- Claim C5: pushing `kCapacity + k` samples (k > 0) from a cleared state
leaves exactly `kCapacity` valid samples, equal to the last `kCapacity`
pushed in arrival order modulo the wrap position (`buffer[j % kCapacity] =
L[j]` for the last `kCapacity` indices `j`), and after any push sequence the
logical size is `min(#pushed, kCapacity)` — indices `[0, size)` hold the
valid samples and the size saturates at capacity. -/
theorem ringBuffer_wraparound (st : RingState) (k : ℕ) (hk : 0 < k)
    (L : List Sample) (hL : L.length = kCapacity + k) :
    (pushList st.clear L).size = kCapacity
      ∧ (∀ (j : ℕ) (hj : j < L.length), L.length - kCapacity ≤ j →
          (pushList st.clear L).buffer
              ⟨j % kCapacity, Nat.mod_lt _ kCapacity_pos⟩
            = L.get ⟨j, hj⟩)
      ∧ (∀ M : List Sample, (pushList st.clear M).size = min M.length kCapacity) := by
  refine ⟨?_, ?_, fun M => size_pushList_clear st M⟩
  · rw [size_pushList_clear, hL]
    omega
  · intro j hj hge
    exact buffer_pushList_clear st L j hj hge _ rfl

/-- A concrete sample used as the witness payload. -/
def sW : Sample := ⟨1, 2, 3, 4, 5, 6⟩

theorem ringBuffer_wraparound_witness :
    (pushList initState.clear (List.replicate (kCapacity + 1) sW)).size
      = kCapacity :=
  (ringBuffer_wraparound initState 1 (by norm_num)
    (List.replicate (kCapacity + 1) sW) (by rw [List.length_replicate])).1

/-- Events performed by `LidarController::start()` on its success path, in
source order: ensure the reader exists (UDP init), start the rotation, the
2-second `runParse` flush loop, clear the reader's packet buffer, set
`running_ = true`, spawn the `loopRead` worker thread, and — last of all —
clear the point-processing ring buffer. -/
inductive StartEvent where
  | ensureReader
  | startRotation
  | flushParse
  | clearReaderBuffer
  | setRunning
  | spawnWorker
  | clearPoints
  deriving DecidableEq, Repr

/-- The order of the events in `start()` (`lidar_controller.hpp`):
`point_processing_.clear()` is executed after `running_` is stored and the
worker thread is constructed. -/
def startEvents : List StartEvent :=
  [.ensureReader, .startRotation, .flushParse, .clearReaderBuffer,
   .setRunning, .spawnWorker, .clearPoints]

/-- Effect of one start event on the point-processing state: only
`clearPoints` touches it. -/
def applyStartEvent (st : RingState) : StartEvent → RingState
  | .clearPoints => st.clear
  | _ => st

/-- Running a list of start events over the point-processing state. -/
def runStartEvents (st : RingState) (es : List StartEvent) : RingState :=
  es.foldl applyStartEvent st

/-- Claim C4 counterexample: in `start()` the point-processing reset does
not precede the transition to `Running`, nor the spawning of the worker —
`point_processing_.clear()` is the final statement before `return true`. -/
theorem startClear_not_before_running :
    ¬ (List.indexOf StartEvent.clearPoints startEvents
          < List.indexOf StartEvent.setRunning startEvents
        ∧ List.indexOf StartEvent.clearPoints startEvents
          < List.indexOf StartEvent.spawnWorker startEvents) := by
  decide

/-- Claim C4 amended: `start()` resets the point-processing state before it
returns, but as its last step — strictly after setting `running_` and
spawning the worker; since the reset is the final event, the state at the
end of `start()` has `size_ = 0` and `head_ = 0` whatever samples were
pushed before the reset, so no pre-flush (or flush-window) sample counts
toward the buffer becoming full afterwards. -/
theorem startClear_last (st : RingState) (L : List Sample) :
    List.indexOf StartEvent.setRunning startEvents
        < List.indexOf StartEvent.clearPoints startEvents
      ∧ List.indexOf StartEvent.spawnWorker startEvents
        < List.indexOf StartEvent.clearPoints startEvents
      ∧ startEvents.getLast? = some StartEvent.clearPoints
      ∧ (runStartEvents (pushList st L) startEvents).size = 0
      ∧ (runStartEvents (pushList st L) startEvents).head = 0 :=
  ⟨by decide, by decide, by decide, rfl, rfl⟩

/-- Abstract transport-level calls made by the controller. -/
inductive TransportCall where
  | initUDP
  | sendWorkMode (mode : ℕ)
  deriving DecidableEq, Repr

/-- The `ensureReaderLocked` helper: when a reader already exists nothing
happens; otherwise a reader is created and `initializeUDP` is attempted,
succeeding iff `initOk` (on failure the reader is dropped again). Returns
the success flag and the transport calls made. -/
def ensureReaderLocked (hasReader initOk : Bool) : Bool × List TransportCall :=
  if hasReader then (true, [])
  else if initOk then (true, [.initUDP]) else (false, [.initUDP])

/-- The `setMode(mode)` member: returns false immediately while `running_`;
otherwise runs `ensureReaderLocked`, failing if it fails, and then sends
`setLidarWorkMode(mode)`; an exception during the send (`sendOk = false`)
makes the call return false after the command was issued. Returns the
result and the transport calls made. -/
def setMode (running hasReader initOk sendOk : Bool) (mode : ℕ) :
    Bool × List TransportCall :=
  if running then (false, [])
  else
    let e := ensureReaderLocked hasReader initOk
    if e.1 = false then (false, e.2)
    else if sendOk then (true, e.2 ++ [.sendWorkMode mode])
    else (false, e.2 ++ [.sendWorkMode mode])

/-- Claim C6: `setMode` called while running fails and makes no transport
call at all (in particular the work-mode command is never sent); called
while not running it performs the ensure step first and, whenever the
session exists, sends the work-mode command with the given mode immediately
after the ensure step's calls; when ensuring the session fails nothing
beyond the ensure step's calls is sent. -/
theorem setMode_running_guard (hasReader initOk sendOk : Bool) (mode : ℕ) :
    setMode true hasReader initOk sendOk mode = (false, [])
      ∧ ((ensureReaderLocked hasReader initOk).1 = true →
          (setMode false hasReader initOk sendOk mode).2
            = (ensureReaderLocked hasReader initOk).2
                ++ [TransportCall.sendWorkMode mode])
      ∧ ((ensureReaderLocked hasReader initOk).1 = false →
          (setMode false hasReader initOk sendOk mode).2
            = (ensureReaderLocked hasReader initOk).2) := by
  cases hasReader <;> cases initOk <;> cases sendOk <;>
    simp [setMode, ensureReaderLocked]

theorem setMode_running_guard_witness :
    (ensureReaderLocked false true).1 = true
      ∧ (setMode false false true true 5).2
          = (ensureReaderLocked false true).2
              ++ [TransportCall.sendWorkMode 5] :=
  ⟨by decide, (setMode_running_guard false true true 5).2.1 (by decide)⟩

/-- The public member functions `LidarController` declares
(`lidar_controller.hpp`): `connect`, `start`, `stop`, `setMode`,
`getDistance`. -/
def controllerMethods : List String :=
  ["connect", "start", "stop", "setMode", "getDistance"]

/-- The controller members invoked by each verb of the TCP command loop in
`handle_client` (`robot_lidar_tcp.cpp`); the DISTANCE verb invokes
`lidar.lastDistance()`. -/
def verbCallees : String → List String
  | "START" => ["start"]
  | "STOP" => ["stop"]
  | "DISTANCE" => ["lastDistance"]
  | "SHUTDOWN" => ["stop"]
  | _ => []

/-- Claim C8 (code bug): the DISTANCE verb does not invoke the controller's
`getDistance` — it invokes `lastDistance`, a member `LidarController` does
not declare (so the translation unit cannot even compile), and the
`(valid, distance)` pair of `getDistance` is never consulted by the
response. -/
theorem distanceVerb_not_getDistance :
    verbCallees "DISTANCE" = ["lastDistance"]
      ∧ "lastDistance" ∉ controllerMethods
      ∧ "getDistance" ∉ verbCallees "DISTANCE" := by
  decide

/-- Little-endian byte encoding of a natural number in `w` bytes — the x86
in-memory layout of the packed integer fields of `LogRecordHeader`. -/
def leBytes : ℕ → ℕ → List ℕ
  | 0, _ => []
  | w + 1, n => n % 256 :: leBytes w (n / 256)

/-- Little-endian byte decoding, inverse of `leBytes`. -/
def leVal : List ℕ → ℕ
  | [] => 0
  | b :: bs => b + 256 * leVal bs

theorem length_leBytes (w n : ℕ) : (leBytes w n).length = w := by
  induction w generalizing n with
  | zero => rfl
  | succ w ih => simp [leBytes, ih]

theorem leVal_leBytes (w n : ℕ) : leVal (leBytes w n) = n % 256 ^ w := by
  induction w generalizing n with
  | zero => simp [leBytes, leVal, Nat.mod_one]
  | succ w ih =>
      rw [leBytes, leVal, ih, pow_succ, mul_comm (256 ^ w) 256, Nat.mod_mul]

/-- The 16 bytes of a packed `LogRecordHeader` as `writeAnyPacket` emits
them: the type byte, three zeroed reserved bytes, the 8-byte little-endian
monotonic timestamp `mono_ts_ns`, and the 4-byte little-endian
`payload_size`. -/
def headerBytes (t ts size : ℕ) : List ℕ :=
  [t % 256, 0, 0, 0] ++ leBytes 8 ts ++ leBytes 4 size

theorem length_headerBytes (t ts size : ℕ) :
    (headerBytes t ts size).length = 16 := by
  simp [headerBytes, length_leBytes]

/-- The bytes `writeAnyPacket` appends to the log file: nothing when the
stream is not open, nothing when the packet's self-reported
`packet_size_field` is zero or exceeds the in-memory object size
(malformed packets are dropped whole), and otherwise the 16-byte header
followed by exactly `packet_size_field` payload bytes. -/
def writeAnyPacket (isOpen : Bool) (t : ℕ) (pkt : List ℕ)
    (sizeField objSize ts : ℕ) : List ℕ :=
  if isOpen = false then []
  else if sizeField = 0 ∨ objSize < sizeField then []
  else headerBytes t ts sizeField ++ pkt.take sizeField

/-- Reading one record back from a byte stream: parse the 16-byte header
(type, timestamp, payload size), then take `payload_size` payload bytes;
`none` on truncated input. Returns the header fields, the payload, and the
remaining bytes. -/
def readRecord (bs : List ℕ) : Option (ℕ × ℕ × ℕ × List ℕ × List ℕ) :=
  if 16 ≤ bs.length then
    let t := bs.getD 0 0
    let ts := leVal ((bs.drop 4).take 8)
    let size := leVal ((bs.drop 12).take 4)
    if bs.length < 16 + size then none
    else some (t, ts, size, (bs.drop 16).take size, bs.drop (16 + size))
  else none

/-- Claim C7: a record is appended iff the self-reported payload size is
non-zero and at most the in-memory object size (otherwise not a single byte
is emitted), and reading a written record back reproduces the exact header
fields (type, timestamp, payload size) and payload bytes. The bounds
`t < 256`, `ts < 256^8` and `sizeField < 256^4` are the C++ ranges of the
`uint8_t`, `uint64_t` and `uint32_t` header fields. -/
theorem rawLogger_roundTrip (t ts sizeField objSize : ℕ) (pkt : List ℕ)
    (hpk : pkt.length = objSize) (ht : t < 256) (hts : ts < 256 ^ 8)
    (hsf : sizeField < 256 ^ 4) (hnz : 0 < sizeField)
    (hle : sizeField ≤ objSize) :
    (∀ sf2 : ℕ,
        writeAnyPacket true t pkt sf2 objSize ts = [] ↔ sf2 = 0 ∨ objSize < sf2)
      ∧ writeAnyPacket false t pkt sizeField objSize ts = []
      ∧ readRecord (writeAnyPacket true t pkt sizeField objSize ts)
          = some (t, ts, sizeField, pkt.take sizeField, []) := by
  refine ⟨?_, rfl, ?_⟩
  · intro sf2
    constructor
    · intro hw
      by_contra hcon
      push_neg at hcon
      obtain ⟨hc1, hc2⟩ := hcon
      rw [writeAnyPacket, if_neg (by simp), if_neg (by omega)] at hw
      have : (headerBytes t ts sf2 ++ pkt.take sf2).length = 0 := by
        rw [hw]; rfl
      rw [List.length_append, length_headerBytes] at this
      omega
    · intro hv
      rw [writeAnyPacket, if_neg (by simp), if_pos hv]
  · have hcond : ¬ (sizeField = 0 ∨ objSize < sizeField) := by omega
    rw [writeAnyPacket, if_neg (by simp), if_neg hcond]
    have htake : (pkt.take sizeField).length = sizeField := by
      rw [List.length_take, hpk]
      omega
    have hlen : (headerBytes t ts sizeField ++ pkt.take sizeField).length
        = 16 + sizeField := by
      rw [List.length_append, length_headerBytes, htake]
    rw [readRecord]
    rw [if_pos (by rw [hlen]; omega)]
    have hd4 : (headerBytes t ts sizeField ++ pkt.take sizeField).drop 4
        = leBytes 8 ts ++ (leBytes 4 sizeField ++ pkt.take sizeField) := by
      simp only [headerBytes, List.append_assoc]
      rw [List.drop_left' (by rfl)]
    have hd12 : (headerBytes t ts sizeField ++ pkt.take sizeField).drop 12
        = leBytes 4 sizeField ++ pkt.take sizeField := by
      rw [show (12 : ℕ) = 4 + 8 from rfl, ← List.drop_drop, hd4,
        List.drop_left' (length_leBytes 8 ts)]
    have hd16 : (headerBytes t ts sizeField ++ pkt.take sizeField).drop 16
        = pkt.take sizeField := by
      rw [show (16 : ℕ) = 12 + 4 from rfl, ← List.drop_drop, hd12,
        List.drop_left' (length_leBytes 4 sizeField)]
    have hts8 : ((headerBytes t ts sizeField ++ pkt.take sizeField).drop 4).take 8
        = leBytes 8 ts := by
      rw [hd4, List.take_left' (length_leBytes 8 ts)]
    have hsz4 : ((headerBytes t ts sizeField ++ pkt.take sizeField).drop 12).take 4
        = leBytes 4 sizeField := by
      rw [hd12, List.take_left' (length_leBytes 4 sizeField)]
    have hgd : (headerBytes t ts sizeField ++ pkt.take sizeField).getD 0 0
        = t % 256 := by
      simp [headerBytes]
    simp only [hts8, hsz4, hgd, leVal_leBytes]
    rw [Nat.mod_eq_of_lt hts, Nat.mod_eq_of_lt hsf, Nat.mod_eq_of_lt ht]
    rw [if_neg (by rw [hlen]; omega)]
    rw [hd16, List.take_of_length_le (le_of_eq htake),
      List.drop_eq_nil_of_le (le_of_eq hlen)]

theorem rawLogger_roundTrip_witness :
    readRecord (writeAnyPacket true 1 [10, 20, 30] 2 3 5)
      = some (1, 5, 2, [10, 20], []) := by
  have h := (rawLogger_roundTrip 1 5 2 3 [10, 20, 30]
    (by decide) (by decide) (by decide) (by decide) (by decide) (by decide)).2.2
  rw [h]
  rfl

/-- A point as serialized by the snapshot logger (`x y z intensity ring`,
one line per point). -/
structure PlyPoint where
  x : ℚ
  y : ℚ
  z : ℚ
  intensity : ℚ
  ring : ℕ
  deriving DecidableEq, Repr

/-- A point cloud pushed to `PLYLogger`. -/
structure Cloud where
  points : List PlyPoint
  deriving DecidableEq, Repr

/-- One output file: the `element vertex` count of its header and the point
lines in order. -/
structure PlyFile where
  vertexCount : ℕ
  pointLines : List PlyPoint
  deriving DecidableEq, Repr

/-- Total number of points over a batch of clouds (`total` in `writePLY`). -/
def totalPoints (clouds : List Cloud) : ℕ :=
  (clouds.map fun c => c.points.length).sum

/-- `PLYLogger::writePLY`: returns without creating a file when the batch
holds zero points in total; otherwise produces one file whose vertex count
is the summed point count, one line per point in batch order. -/
def writePLY (clouds : List Cloud) : Option PlyFile :=
  if totalPoints clouds = 0 then none
  else some ⟨totalPoints clouds, (clouds.map Cloud.points).flatten⟩

/-- Logger state: the pending buffer and the steady-clock time of the last
flush, in seconds. -/
structure LoggerState where
  buffer : List Cloud
  lastFlush : ℚ
  deriving DecidableEq, Repr

/-- Logger events: a producer `push(cloud)`, a wake of the logger thread at
time `t`, and `stop()`. -/
inductive LogEvent where
  | push (c : Cloud)
  | wake (t : ℚ)
  | stop
  deriving DecidableEq, Repr

/-- One step of the logger. `push` only appends to the buffer under the
lock — it performs no file output. A wake flushes when at least
`FLUSH_INTERVAL = 10` seconds passed since the last flush and the buffer is
non-empty: the buffer is swapped out, serialized by `writePLY`, and
`last_flush_` is set to the wake time. `stop` serializes whatever is still
buffered (`writePLY` is a no-op on an empty batch). Returns the new state
and the files written. -/
def stepLogger (st : LoggerState) : LogEvent → LoggerState × List PlyFile
  | .push c => ({ st with buffer := st.buffer ++ [c] }, [])
  | .wake t =>
      if 10 ≤ t - st.lastFlush ∧ st.buffer ≠ [] then
        (⟨[], t⟩, (writePLY st.buffer).toList)
      else (st, [])
  | .stop => (st, (writePLY st.buffer).toList)

/-- Running the logger over a list of events, collecting the files
written. -/
def runLogger : LoggerState → List LogEvent → LoggerState × List PlyFile
  | st, [] => (st, [])
  | st, e :: es =>
      ((runLogger (stepLogger st e).1 es).1,
        (stepLogger st e).2 ++ (runLogger (stepLogger st e).1 es).2)

/-- Claim C9 counterexample: pushing a single cloud with zero points and
waking 10 s later makes the flush branch fire (the buffer is non-empty and
the interval has elapsed), yet no file at all is produced — `writePLY`
returns early on `total == 0` — where the claim demands exactly one file
whose vertex count equals the batch total (here 0). -/
theorem plyFlush_empty_cloud_no_file :
    (10 : ℚ) ≤ 10 - (⟨[Cloud.mk []], 0⟩ : LoggerState).lastFlush
      ∧ (⟨[Cloud.mk []], 0⟩ : LoggerState).buffer ≠ []
      ∧ (stepLogger ⟨[Cloud.mk []], 0⟩ (.wake 10)).2 = [] := by
  refine ⟨by norm_num, by simp, ?_⟩
  simp [stepLogger, writePLY, totalPoints]

/-- Claim C9 amended: `push` performs no file output; a wake strictly
inside the 10-second flush interval writes nothing, and a whole event run
with every wake before `lastFlush + 10` and no stop produces no files at
all; when a flush fires on a batch with a non-zero total point count,
exactly one file is produced whose vertex count is the summed point count
of the swapped-out batch, with one line per point, and the buffer is
emptied; `stop` flushes a remaining non-empty batch (with non-zero total)
the same way. A batch whose clouds hold zero points in total produces no
file (see the counterexample). -/
theorem plyLogger_flush (st : LoggerState) :
    (∀ c, stepLogger st (.push c) = ({ st with buffer := st.buffer ++ [c] }, []))
      ∧ (∀ t : ℚ, t - st.lastFlush < 10 → stepLogger st (.wake t) = (st, []))
      ∧ (∀ es : List LogEvent,
          (∀ t : ℚ, LogEvent.wake t ∈ es → t < st.lastFlush + 10) →
          LogEvent.stop ∉ es → (runLogger st es).2 = [])
      ∧ (∀ t : ℚ, 10 ≤ t - st.lastFlush → st.buffer ≠ [] →
          totalPoints st.buffer ≠ 0 →
          stepLogger st (.wake t)
            = (⟨[], t⟩, [⟨totalPoints st.buffer, (st.buffer.map Cloud.points).flatten⟩]))
      ∧ (st.buffer ≠ [] → totalPoints st.buffer ≠ 0 →
          (stepLogger st .stop).2
            = [⟨totalPoints st.buffer, (st.buffer.map Cloud.points).flatten⟩]) := by
  refine ⟨fun c => rfl, ?_, ?_, ?_, ?_⟩
  · intro t hlt
    simp only [stepLogger]
    rw [if_neg]
    intro hcon
    exact absurd hcon.1 (not_le.mpr hlt)
  · intro es
    induction es generalizing st with
    | nil => intro _ _; rfl
    | cons e es ih =>
        intro hw hs
        simp only [runLogger]
        cases e with
        | push c =>
            rw [stepLogger]
            simp only [List.nil_append]
            apply ih
            · intro t ht
              exact hw t (List.mem_cons_of_mem _ ht)
            · intro hc
              exact hs (List.mem_cons_of_mem _ hc)
        | wake t =>
            have ht := hw t (List.mem_cons_self _ _)
            have hstep : stepLogger st (.wake t) = (st, []) := by
              simp only [stepLogger]
              rw [if_neg]
              intro hcon
              have := hcon.1
              linarith
            rw [hstep]
            simp only [List.nil_append]
            apply ih
            · intro u hu
              exact hw u (List.mem_cons_of_mem _ hu)
            · intro hc
              exact hs (List.mem_cons_of_mem _ hc)
        | stop => exact absurd (List.mem_cons_self _ _) hs
  · intro t h10 hne htot
    simp only [stepLogger]
    rw [if_pos ⟨h10, hne⟩, writePLY, if_neg htot]
    rfl
  · intro hne htot
    simp only [stepLogger]
    rw [writePLY, if_neg htot]
    rfl

/-- A one-point cloud used by the flush witness. -/
def cW : Cloud := ⟨[⟨1, 2, 3, 4, 5⟩]⟩

theorem plyLogger_flush_witness :
    stepLogger ⟨[cW], 0⟩ (.wake 12)
      = (⟨[], 12⟩, [⟨1, [⟨1, 2, 3, 4, 5⟩]⟩]) := by
  have h := (plyLogger_flush ⟨[cW], 0⟩).2.2.2.1 12
    (by norm_num) (by simp) (by decide)
  rw [h]
  rfl

/-- A cloud point in the coordinate-transform pipeline
(`unilidar_sdk2::PointUnitree`), with exact real coordinates standing for
the C++ floats. -/
structure RPoint where
  x : ℝ
  y : ℝ
  z : ℝ
  intensity : ℝ
  time : ℝ
  ring : ℕ

/-- Degrees to radians, `deg = M_PI / 180` in `transformMatrix()`. -/
noncomputable def degRad (d : ℝ) : ℝ := d * (Real.pi / 180)

/-- The yaw angle `th_z = -25.5 * deg` of `transformMatrix()`. -/
noncomputable def thZ : ℝ := degRad (-25.5)

/-- The pitch angle `th_y = -47.5 * deg` of `transformMatrix()`. -/
noncomputable def thY : ℝ := degRad (-47.5)

/-- The fixed transform `Tx = T * Ms * Mz * Ry * Rz` of `transformMatrix()`
applied to a sensor-frame point, as the source composes it on column
vectors: the `Rz` rotation rows
`(cos th_z, sin th_z, 0) / (-sin th_z, cos th_z, 0) / (0, 0, 1)`, then the
`Ry` rotation rows `(cos th_y, 0, -sin th_y) / (0, 1, 0) /
(sin th_y, 0, cos th_y)`, the disabled mirror `Mz = I`, the uniform scaling
`Ms = 100 * I` (m to cm) and the zero translation `T = I`. Intensity, time
and ring are copied unchanged, as in `transformCloud`. -/
noncomputable def transformPoint (p : RPoint) : RPoint :=
  let x1 := Real.cos thZ * p.x + Real.sin thZ * p.y
  let y1 := -Real.sin thZ * p.x + Real.cos thZ * p.y
  let z1 := p.z
  let x2 := Real.cos thY * x1 - Real.sin thY * z1
  let y2 := y1
  let z2 := Real.sin thY * x1 + Real.cos thY * z1
  ⟨100 * x2, 100 * y2, 100 * z2, p.intensity, p.time, p.ring⟩

/-- The chassis self-occlusion box `ignoreBox(x, y)`, in robot-frame cm:
`y > -20 && y < 20 && x < 20 && x > -50`. -/
def ignoreBox (x y : ℝ) : Prop :=
  -20 < y ∧ y < 20 ∧ x < 20 ∧ -50 < x

noncomputable instance (x y : ℝ) : Decidable (ignoreBox x y) :=
  inferInstanceAs (Decidable (_ ∧ _ ∧ _ ∧ _))

/-- `transformCloud`: every point is transformed first, and the transformed
point is kept exactly when its robot-frame planar coordinates fall outside
the chassis box — the box test reads the coordinates of `q = T * p`, never
the raw sensor-frame ones. -/
noncomputable def transformCloud (pts : List RPoint) : List RPoint :=
  (pts.map transformPoint).filter fun q => decide (¬ ignoreBox q.x q.y)

/-- The sensor-frame origin point. -/
def originPoint : RPoint := ⟨0, 0, 0, 0, 0, 0⟩

theorem transformPoint_origin : transformPoint originPoint = originPoint := by
  unfold transformPoint originPoint
  simp

/-- Claim C10: the sensor-frame origin transforms to the robot-frame origin,
which lies inside the self-occlusion box, so `transformCloud` discards it;
in general a point appears in the output iff it is the transform of an
input point whose transformed coordinates are outside the box — the filter
is applied to the transformed (robot-frame) coordinates. -/
theorem transformCloud_box_filter :
    transformCloud [originPoint] = []
      ∧ ∀ (pts : List RPoint) (q : RPoint),
          (q ∈ transformCloud pts
            ↔ ∃ p ∈ pts, transformPoint p = q ∧ ¬ ignoreBox q.x q.y) := by
  constructor
  · have hbox : ignoreBox originPoint.x originPoint.y := by
      unfold ignoreBox originPoint
      norm_num
    unfold transformCloud
    rw [List.map_cons, List.map_nil, transformPoint_origin]
    simp [hbox]
  · intro pts q
    unfold transformCloud
    simp only [List.mem_filter, List.mem_map, decide_eq_true_eq]
    constructor
    · rintro ⟨⟨p, hp, hq⟩, hbox⟩
      exact ⟨p, hp, hq, hbox⟩
    · rintro ⟨p, hp, hq, hbox⟩
      exact ⟨⟨p, hp, hq⟩, hbox⟩

end RobotLidar
